import Mathlib

/-!
Verification of the voice-recorder session machine and its transcript
assembler (repository `my-blocks`).

The development shallowly embeds the two relevant source files:

* `src/machines/recorder/recorder.tsx`: the pure function
  `processTranscriptToString`, embedded below with `Option` marking the
  JavaScript operations that can throw (`alternatives[0].transcript` on an
  empty alternatives array, `chunks[chunks.length - 1].push` on an empty
  outer array, `x.at(-1) as {...}` followed by a field access).
* `src/machines/recorder/index.ts`: the xstate session machine, embedded as
  an explicit step function on a `System` record (phase, context, pending
  animation frames, fresh-id counters) returning the next system together
  with the list of external effects performed.
-/

namespace Recorder

/-! ### Transcript assembler (`recorder.tsx`) -/

/-- One Deepgram transcript message: `data.channel.alternatives` (each
alternative reduced to its `transcript` string) and `data.is_final`. -/
structure DeepgramResponseData where
  alternatives : List String
  is_final : Bool
deriving Repr, DecidableEq

/-- Entry of the assembler's internal `chunks` array:
`{ transcript, is_final }`. -/
structure TranscriptChunk where
  transcript : String
  is_final : Bool
deriving Repr, DecidableEq

/-- Model of JavaScript `String.prototype.trim` on the character list:
drop whitespace from the front, then from the back. -/
def trimChars (l : List Char) : List Char :=
  ((l.dropWhile Char.isWhitespace).reverse.dropWhile Char.isWhitespace).reverse

/-- Model of JavaScript `result.trim()`. -/
def jsTrim (s : String) : String :=
  String.mk (trimChars s.data)

/-- Model of `chunks[chunks.length - 1].push(c)`: append `c` to the last run
of `chunks`; fails (`none`) when `chunks` is empty, as the JavaScript
expression would throw there. -/
def pushLast : List (List TranscriptChunk) → TranscriptChunk → Option (List (List TranscriptChunk))
  | [], _ => none
  | [run], c => some [run ++ [c]]
  | run :: rest, c => (pushLast rest c).map (fun t => run :: t)

/-- Body of the first `for` loop of `processTranscriptToString`:
read `x.channel.alternatives[0].transcript` (fails when `alternatives` is
empty), push `{ transcript, is_final }` onto the last run, and open a fresh
empty run after a final event. -/
def processChunksStep (chunks : List (List TranscriptChunk)) (x : DeepgramResponseData) :
    Option (List (List TranscriptChunk)) :=
  match x.alternatives.head? with
  | none => none
  | some transcript =>
    match pushLast chunks ⟨transcript, x.is_final⟩ with
    | none => none
    | some chunks2 => some (if x.is_final then chunks2 ++ [[]] else chunks2)

/-- The first `for` loop of `processTranscriptToString`, iterated over the
input events. -/
def processChunksGo : List (List TranscriptChunk) → List DeepgramResponseData →
    Option (List (List TranscriptChunk))
  | chunks, [] => some chunks
  | chunks, x :: rest =>
    match processChunksStep chunks x with
    | none => none
    | some chunks2 => processChunksGo chunks2 rest

/-- The `chunks` array built by `processTranscriptToString`, starting from the
initial `[[]]`. -/
def processChunks (data : List DeepgramResponseData) : Option (List (List TranscriptChunk)) :=
  processChunksGo [[]] data

/-- Body of the second `for` loop: `const last = x.at(-1) as {...};
result += last.transcript + " "` — the field access throws when the run is
empty, modelled by `none`. -/
def appendFinalsGo : String → List (List TranscriptChunk) → Option String
  | result, [] => some result
  | result, x :: rest =>
    match x.getLast? with
    | none => none
    | some last => appendFinalsGo (result ++ last.transcript ++ " ") rest

/-- Embedding of `processTranscriptToString` (recorder.tsx, lines 14-47).
`chunks.pop() ?? []` becomes `getLast?.getD []` plus `dropLast`; the guarded
access `lastChunk.at(-1)?.transcript ?? ""` keeps its JavaScript fallback. -/
def processTranscriptToString (data : List DeepgramResponseData) : Option String :=
  (processChunks data).bind (fun chunks =>
    (appendFinalsGo "" chunks.dropLast).map (fun result =>
      jsTrim
        (if (chunks.getLast?.getD []).length > 0 then
          result ++ (((chunks.getLast?.getD []).getLast?.map TranscriptChunk.transcript).getD "")
        else result)))

/-! ### Specification-level assembler

The following definitions are modelled from the spec's words (spec §4.2):
partition the event sequence into consecutive runs, each run ending exactly
at (and including) an event with `isFinal = true`, a trailing run with no
closing final event kept separate; keep only the last event's fragment of
each completed run followed by a single space, append only the last fragment
of a non-empty trailing run, and trim the result. -/

/-- Fragment carried by a recognition event (first alternative). -/
def fragOf (e : DeepgramResponseData) : String :=
  e.alternatives.headD ""

/-- Last event's fragment of a run (empty string on an empty run). -/
def lastFrag (run : List DeepgramResponseData) : String :=
  ((run.getLast?).map fragOf).getD ""

/-- Modelled from the spec: partition into completed runs (each ending at a
final event) and the trailing live run. -/
def runsOfGo : List (List DeepgramResponseData) → List DeepgramResponseData →
    List DeepgramResponseData → List (List DeepgramResponseData) × List DeepgramResponseData
  | done, cur, [] => (done, cur)
  | done, cur, e :: rest =>
    if e.is_final then runsOfGo (done ++ [cur ++ [e]]) [] rest
    else runsOfGo done (cur ++ [e]) rest

/-- Modelled from the spec: the runs partition of an event sequence. -/
def runsOf (data : List DeepgramResponseData) :
    List (List DeepgramResponseData) × List DeepgramResponseData :=
  runsOfGo [] [] data

/-- Modelled from the spec: each completed run contributes its last fragment
followed by a single space. -/
def finalsPart : List (List DeepgramResponseData) → String
  | [] => ""
  | r :: rest => (lastFrag r ++ " ") ++ finalsPart rest

/-- Modelled from the spec: the assembled display string. -/
def assembleSpec (data : List DeepgramResponseData) : String :=
  let p := runsOf data
  let livePart := if p.2.isEmpty then "" else lastFrag p.2
  jsTrim (finalsPart p.1 ++ livePart)

/-- Modelled from the spec: fragments joined by single spaces. -/
def joinSpace : List String → String
  | [] => ""
  | [a] => a
  | a :: rest => a ++ " " ++ joinSpace rest

/-! ### Session state machine (`index.ts`)

The xstate machine `recorderMachine` is embedded as a step function over an
explicit `System` record. External resource handles (socket, stream,
analyser node, data array, audio context, object URLs, blob chunks) are
abstract tokens (`Nat`); a `MediaRecorder` keeps its observable `state`
field, which the guarded actions `startRecording` / `pauseRecording` /
`resumeRecording` test. Animation-frame scheduling is part of the system
state: `scheduled` is the list of pending frame ids of the analyzer loop,
and firing a frame re-schedules the loop under a fresh id (the callback
closes over the context snapshot present when `startAnalyzer` ran, in which
`analyser` and `dataArray` are non-null, so it always re-schedules).
Per xstate v5, property assigners inside one `assign` call all read the
context as it was before that `assign`. -/

/-- The five values of `SupportedLanguage` (index.ts, line 77). -/
inductive SupportedLanguage
  | ruRU | enUS | esES | frFR | deDE
deriving Repr, DecidableEq

/-- Observable `MediaRecorder.state`. -/
inductive MicRecState
  | inactive | recording | paused
deriving Repr, DecidableEq

/-- A `MediaRecorder` handle, reduced to its observable state. -/
structure Microphone where
  state : MicRecState
deriving Repr, DecidableEq

/-- Output of the `initialize` actor on success (index.ts, lines 67-74). -/
structure InitBundle where
  microphone : Microphone
  socket : Nat
  stream : Nat
  analyser : Nat
  dataArray : Nat
  audioContext : Nat
deriving Repr, DecidableEq

/-- The machine's `RecorderContext` (index.ts, lines 14-31). `Error` values
are modelled by their message string; `Blob` chunks and object URLs by
abstract `Nat` tokens; a recorded blob by its chunk list. -/
structure RecorderContext where
  transcripts : List DeepgramResponseData
  microphone : Option Microphone
  socket : Option Nat
  prefetchedKey : Option String
  error : Option String
  stream : Option Nat
  pendingStartClick : Bool
  language : SupportedLanguage
  audioChunks : List Nat
  recordedAudio : Option (List Nat)
  audioUrl : Option Nat
  elapsedTime : Nat
  analyser : Option Nat
  dataArray : Option Nat
  analyzerFrameId : Option Nat
  audioContext : Option Nat
deriving Repr, DecidableEq

/-- The machine's initial context (index.ts, lines 206-223). -/
def initialContext : RecorderContext where
  transcripts := []
  microphone := none
  socket := none
  prefetchedKey := none
  error := none
  stream := none
  pendingStartClick := false
  language := SupportedLanguage.ruRU
  audioChunks := []
  recordedAudio := none
  audioUrl := none
  elapsedTime := 0
  analyser := none
  dataArray := none
  analyzerFrameId := none
  audioContext := none

/-- Substates of `recording`. The `ticking` pseudostate (entry `tick`,
`always` back to `active`) is traversed atomically inside the step for the
one-second timer event, so it is not a resting state here. -/
inductive RecSub
  | active | paused
deriving Repr, DecidableEq

/-- Resting states of the machine. -/
inductive Phase
  | idle | prefetching | ready | initializing
  | recording (sub : RecSub)
deriving Repr, DecidableEq

/-- Machine events. `hover`, `click`, `togglePause`, `transcriptReceived`,
`audioData`, `errorEvt` and `changeLanguage` are the `RecorderEvent` union;
`fetchDone`/`fetchError` are the `fetchKey` invoke completions,
`initDone`/`initError` the `initialize` invoke completions; `after1000` and
`after20000` are the delayed transitions of `recording.active` and `ready`;
`frameFired` is the browser running a scheduled animation frame. -/
inductive REvent
  | hover
  | click
  | togglePause
  | transcriptReceived (data : DeepgramResponseData)
  | audioData (chunk : Nat)
  | errorEvt (msg : String)
  | changeLanguage (l : SupportedLanguage)
  | fetchDone (key : String)
  | fetchError (msg : String)
  | initDone (b : InitBundle)
  | initError (msg : String)
  | after1000
  | after20000
  | frameFired (id : Nat)
deriving Repr, DecidableEq

/-- External side effects performed by actions. -/
inductive Effect
  | micStart
  | micStop
  | micPause
  | micResume
  | socketRequestClose
  | trackStop
  | audioContextClose
  | analyserDisconnect
  | scheduleFrame (id : Nat)
  | cancelFrame (id : Nat)
  | revokeUrl (u : Nat)
  | createUrl (u : Nat) (chunks : List Nat)
deriving Repr, DecidableEq

/-- Whole-system state: machine phase and context, plus the browser-side
animation-frame queue and fresh-id counters for frames and object URLs. -/
structure System where
  phase : Phase
  ctx : RecorderContext
  scheduled : List Nat
  nextFrameId : Nat
  nextUrl : Nat
deriving Repr, DecidableEq

/-! #### Actions (index.ts, lines 102-188) -/

/-- Action `startRecording` (lines 103-111): guarded on microphone and
socket present and `microphone.state === "inactive"`; calls
`microphone.start(250)`. -/
def startRecordingAction (c : RecorderContext) : RecorderContext × List Effect :=
  match c.microphone, c.socket with
  | some m, some _ =>
    if m.state = MicRecState.inactive then
      ({ c with microphone := some ⟨MicRecState.recording⟩ }, [Effect.micStart])
    else (c, [])
  | _, _ => (c, [])

/-- Action `stopRecording` (lines 112-130): each teardown step individually
guarded on its resource being present. The effects are pure teardown calls;
the context fields themselves are reset by the exit `assign`. -/
def stopRecordingEffects (c : RecorderContext) : List Effect :=
  (if c.microphone.isSome then [Effect.micStop] else []) ++
  (if c.socket.isSome then [Effect.socketRequestClose] else []) ++
  (if c.stream.isSome then [Effect.trackStop] else []) ++
  (if c.audioContext.isSome then [Effect.audioContextClose] else []) ++
  (if c.analyser.isSome then [Effect.analyserDisconnect] else [])

/-- Action `pauseRecording` (lines 142-146): guarded on
`microphone.state === "recording"`. -/
def pauseRecordingAction (c : RecorderContext) : RecorderContext × List Effect :=
  match c.microphone with
  | some m =>
    if m.state = MicRecState.recording then
      ({ c with microphone := some ⟨MicRecState.paused⟩ }, [Effect.micPause])
    else (c, [])
  | none => (c, [])

/-- Action `resumeRecording` (lines 147-151): guarded on
`microphone.state === "paused"`. -/
def resumeRecordingAction (c : RecorderContext) : RecorderContext × List Effect :=
  match c.microphone with
  | some m =>
    if m.state = MicRecState.paused then
      ({ c with microphone := some ⟨MicRecState.recording⟩ }, [Effect.micResume])
    else (c, [])
  | none => (c, [])

/-- Action `startAnalyzer` (lines 152-176): when `analyser` and `dataArray`
are present it schedules the first animation frame of the sampling loop and
stores only that first frame's id in `analyzerFrameId`. -/
def startAnalyzerAction (c : RecorderContext) (sched : List Nat) (next : Nat) :
    RecorderContext × List Nat × Nat × List Effect :=
  if c.analyser.isSome ∧ c.dataArray.isSome then
    ({ c with analyzerFrameId := some next }, sched ++ [next], next + 1,
     [Effect.scheduleFrame next])
  else (c, sched, next, [])

/-- Action `stopAnalyzer` (lines 177-185): guarded on a stored frame id;
cancels that id (a no-op at the browser if the frame already fired) and
clears the stored id. -/
def stopAnalyzerAction (c : RecorderContext) (sched : List Nat) :
    RecorderContext × List Nat × List Effect :=
  match c.analyzerFrameId with
  | some f => ({ c with analyzerFrameId := none }, sched.erase f, [Effect.cancelFrame f])
  | none => (c, sched, [])

/-- Exit `assign` of the `recording` state (lines 369-389). All property
assigners read the pre-assign context, so `recordedAudio` and `audioUrl`
are built from the accumulated `audioChunks` even though `audioChunks` is
reset in the same call; the old object URL, if any, is revoked before the
new one is created. -/
def recordingExitAssign (c : RecorderContext) (nextUrl : Nat) :
    RecorderContext × Nat × List Effect :=
  ({ c with
      microphone := none
      socket := none
      pendingStartClick := false
      audioChunks := []
      stream := none
      prefetchedKey := none
      elapsedTime := 0
      analyser := none
      dataArray := none
      audioContext := none
      recordedAudio := some c.audioChunks
      audioUrl := some nextUrl },
   nextUrl + 1,
   (match c.audioUrl with
    | some u => [Effect.revokeUrl u]
    | none => []) ++ [Effect.createUrl nextUrl c.audioChunks])

/-- Action `resetSavedState` (lines 138-141). -/
def resetSavedState (c : RecorderContext) : RecorderContext :=
  { c with audioUrl := none, transcripts := [] }

/-- Action `invalidateKey` (lines 131-134). -/
def invalidateKey (c : RecorderContext) : RecorderContext :=
  { c with prefetchedKey := none, error := none }

/-! #### Step function -/

/-- One machine step: processes a single event to completion (exit actions,
transition actions, entry actions, and the `ticking` always-transition) and
returns the next system plus the effects performed.  Events with no handler
in the current state (notably `ERROR`, which no state of the machine
handles) are ignored, as xstate ignores unhandled events. -/
def step (s : System) (e : REvent) : System × List Effect :=
  match s.phase, e with
  | _, REvent.changeLanguage l =>
    ({ s with ctx := { s.ctx with language := l } }, [])
  | _, REvent.frameFired id =>
    if id ∈ s.scheduled then
      ({ s with scheduled := (s.scheduled.erase id) ++ [s.nextFrameId],
                nextFrameId := s.nextFrameId + 1 },
       [Effect.scheduleFrame s.nextFrameId])
    else (s, [])
  | Phase.idle, REvent.hover =>
    ({ s with phase := Phase.prefetching }, [])
  | Phase.prefetching, REvent.click =>
    ({ s with ctx := resetSavedState { s.ctx with pendingStartClick := true } }, [])
  | Phase.prefetching, REvent.fetchDone key =>
    if s.ctx.pendingStartClick then
      ({ s with phase := Phase.initializing,
                ctx := { s.ctx with prefetchedKey := some key, pendingStartClick := false } },
       [])
    else
      ({ s with phase := Phase.ready, ctx := { s.ctx with prefetchedKey := some key } }, [])
  | Phase.prefetching, REvent.fetchError msg =>
    ({ s with phase := Phase.idle, ctx := { s.ctx with error := some msg } }, [])
  | Phase.ready, REvent.after20000 =>
    ({ s with phase := Phase.idle, ctx := invalidateKey s.ctx }, [])
  | Phase.ready, REvent.click =>
    ({ s with phase := Phase.initializing, ctx := resetSavedState s.ctx }, [])
  | Phase.initializing, REvent.initDone b =>
    let c1 := { s.ctx with
      microphone := some b.microphone
      socket := some b.socket
      stream := some b.stream
      analyser := some b.analyser
      dataArray := some b.dataArray
      audioContext := some b.audioContext
      prefetchedKey := none }
    let p := startRecordingAction c1
    let q := startAnalyzerAction p.1 s.scheduled s.nextFrameId
    ({ phase := Phase.recording RecSub.active, ctx := q.1, scheduled := q.2.1,
       nextFrameId := q.2.2.1, nextUrl := s.nextUrl },
     p.2 ++ q.2.2.2)
  | Phase.initializing, REvent.initError msg =>
    ({ s with phase := Phase.idle, ctx := { s.ctx with error := some msg } }, [])
  | Phase.recording _, REvent.transcriptReceived d =>
    ({ s with ctx := { s.ctx with transcripts := s.ctx.transcripts ++ [d] } }, [])
  | Phase.recording _, REvent.audioData ch =>
    ({ s with ctx := { s.ctx with audioChunks := s.ctx.audioChunks ++ [ch] } }, [])
  | Phase.recording _, REvent.click =>
    let effs1 := stopRecordingEffects s.ctx
    let q := stopAnalyzerAction s.ctx s.scheduled
    let r := recordingExitAssign q.1 s.nextUrl
    ({ phase := Phase.idle, ctx := r.1, scheduled := q.2.1,
       nextFrameId := s.nextFrameId, nextUrl := r.2.1 },
     effs1 ++ q.2.2 ++ r.2.2)
  | Phase.recording RecSub.active, REvent.togglePause =>
    let p := pauseRecordingAction s.ctx
    let q := stopAnalyzerAction p.1 s.scheduled
    ({ s with phase := Phase.recording RecSub.paused, ctx := q.1, scheduled := q.2.1 },
     p.2 ++ q.2.2)
  | Phase.recording RecSub.paused, REvent.togglePause =>
    let p := resumeRecordingAction s.ctx
    let q := startAnalyzerAction p.1 s.scheduled s.nextFrameId
    ({ s with phase := Phase.recording RecSub.active, ctx := q.1, scheduled := q.2.1,
              nextFrameId := q.2.2.1 },
     p.2 ++ q.2.2.2)
  | Phase.recording RecSub.active, REvent.after1000 =>
    ({ s with ctx := { s.ctx with elapsedTime := s.ctx.elapsedTime + 1 } }, [])
  | _, _ => (s, [])

/-- Run a trace of events from a system state, discarding effects. -/
def run (s : System) (tr : List REvent) : System :=
  tr.foldl (fun s e => (step s e).1) s


/-! #### The `initialize` actor (index.ts, lines 39-75)

The actor's two awaited acquisitions are modelled by their outcomes, given
as inputs: `getMicrophone()` yields a recorder plus stream, and
`initializeDeepgram(...)` yields a socket once the connection opens. The
source runs them under `Promise.all`: if either rejects, the combined
promise rejects with that error and the source contains no cleanup code for
the other, already- (or eventually-) acquired resource — it is simply
dropped. The returned effect list records the release operations performed
before surfacing a failure; the source performs none, so it is `[]` in every
branch. The analyser, data array and audio context constructed after joint
success are abstract fresh tokens (`0`). -/

/-- Result of `getMicrophone()` (index.ts, lines 402-417). -/
structure MicAcquisition where
  microphone : Microphone
  stream : Nat
deriving Repr, DecidableEq

/-- The `initialize` actor. `apiKey = input.prefetchedKey ?? await
fetchKeyFunc()`: the fetch outcome `fr` matters only when no key was
prefetched. When both acquisitions succeed, the full bundle is returned;
when either fails, the error is surfaced with no release performed. If both
fail, `Promise.all` rejects with whichever settled first; the model picks
the microphone's error, which no claim depends on. -/
def initializeActor (pk : Option String) (fr : Except String String)
    (mr : Except String MicAcquisition) (sr : Except String Nat) :
    Except String InitBundle × List Effect :=
  match pk, fr with
  | none, Except.error e => (Except.error e, [])
  | _, _ =>
    match mr, sr with
    | Except.ok m, Except.ok sock =>
      (Except.ok ⟨m.microphone, sock, m.stream, 0, 0, 0⟩, [])
    | Except.error e, _ => (Except.error e, [])
    | _, Except.error e => (Except.error e, [])

/-! #### Concrete sample states used by witnesses and counterexamples -/

/-- Recognizer of the `createUrl` effect. -/
def isCreateUrl : Effect → Bool
  | Effect.createUrl _ _ => true
  | _ => false

/-- A context as found mid-recording: all resources held, a first analyzer
frame id stored, three audio chunks accumulated, a previously published
object URL, 42 elapsed seconds. -/
def sampleRecCtx : RecorderContext :=
  { initialContext with
      microphone := some ⟨MicRecState.recording⟩
      socket := some 1
      stream := some 2
      analyser := some 3
      dataArray := some 4
      audioContext := some 5
      analyzerFrameId := some 0
      audioChunks := [10, 11, 12]
      audioUrl := some 7
      elapsedTime := 42 }

/-- A system mid-recording in the `active` substate; frame 0 is still
pending, the next fresh frame id is 1, the next object URL is 8. -/
def sampleRecSys : System :=
  ⟨Phase.recording RecSub.active, sampleRecCtx, [0], 1, 8⟩

/-- A system in `ready` holding a cached (about to become stale) key. -/
def staleReadySys : System :=
  ⟨Phase.ready, { initialContext with prefetchedKey := some "stale" }, [], 0, 0⟩

/-- A fresh system in `idle`. -/
def idleSys : System :=
  ⟨Phase.idle, initialContext, [], 0, 0⟩

/-- A system in `initializing`. -/
def initializingSys : System :=
  ⟨Phase.initializing, initialContext, [], 0, 0⟩

/-- Bundle delivered by a successful initialization. -/
def bundle0 : InitBundle :=
  ⟨⟨MicRecState.inactive⟩, 1, 2, 3, 4, 5⟩

/-! ### Lemmas relating the code assembler to the spec assembler -/

/-- Chunk entry produced by the loop body for an event. -/
def toC (e : DeepgramResponseData) : TranscriptChunk :=
  ⟨fragOf e, e.is_final⟩

lemma head?_of_ne_nil (l : List String) (h : l ≠ []) : l.head? = some (l.headD "") := by
  cases l with
  | nil => exact absurd rfl h
  | cons a t => rfl

lemma pushLast_append (L : List (List TranscriptChunk)) (r : List TranscriptChunk)
    (x : TranscriptChunk) : pushLast (L ++ [r]) x = some (L ++ [r ++ [x]]) := by
  induction L with
  | nil => rfl
  | cons a L ih =>
    cases L with
    | nil => simp [pushLast]
    | cons b L2 =>
      simp only [List.cons_append]
      have hstep : pushLast (a :: b :: (L2 ++ [r])) x =
          (pushLast (b :: (L2 ++ [r])) x).map (fun t => a :: t) := rfl
      rw [hstep]
      have ih2 : pushLast (b :: (L2 ++ [r])) x = some (b :: (L2 ++ [r ++ [x]])) := by
        simpa using ih
      rw [ih2]
      rfl

lemma processChunksGo_spec (data : List DeepgramResponseData) :
    ∀ done cur, (∀ e ∈ data, e.alternatives ≠ []) →
    processChunksGo (done.map (List.map toC) ++ [cur.map toC]) data =
      some ((runsOfGo done cur data).1.map (List.map toC) ++
            [(runsOfGo done cur data).2.map toC]) := by
  induction data with
  | nil => intro done cur _; rfl
  | cons e rest ih =>
    intro done cur h
    have he : e.alternatives ≠ [] := h e (List.mem_cons_self e rest)
    have hrest : ∀ x ∈ rest, x.alternatives ≠ [] := fun x hx => h x (List.mem_cons_of_mem e hx)
    have hstep : processChunksStep (done.map (List.map toC) ++ [cur.map toC]) e =
        some (if e.is_final
          then (done.map (List.map toC) ++ [(cur ++ [e]).map toC]) ++ [[]]
          else done.map (List.map toC) ++ [(cur ++ [e]).map toC]) := by
      simp only [processChunksStep, head?_of_ne_nil e.alternatives he, pushLast_append,
        List.map_append]
      rfl
    by_cases hf : e.is_final = true
    · simp only [processChunksGo, hstep, hf, if_true, runsOfGo]
      have h1 : (done.map (List.map toC) ++ [(cur ++ [e]).map toC]) ++ [[]] =
          (done ++ [cur ++ [e]]).map (List.map toC) ++ [([] : List DeepgramResponseData).map toC] := by
        simp
      rw [h1, ih (done ++ [cur ++ [e]]) [] hrest]
    · have hf2 : e.is_final = false := by
        cases hb : e.is_final with
        | true => exact absurd hb hf
        | false => rfl
      simp only [processChunksGo, hstep, hf2, if_neg, Bool.false_eq_true, not_false_iff,
        if_false, runsOfGo]
      rw [ih done (cur ++ [e]) hrest]

lemma runsOfGo_ne_nil (data : List DeepgramResponseData) :
    ∀ done cur, (∀ r ∈ done, r ≠ []) →
    ∀ r ∈ (runsOfGo done cur data).1, r ≠ [] := by
  induction data with
  | nil => intro done cur h; exact h
  | cons e rest ih =>
    intro done cur h
    by_cases hf : e.is_final = true
    · simp only [runsOfGo, hf, if_true]
      refine ih (done ++ [cur ++ [e]]) [] ?_
      intro r hr
      rcases List.mem_append.mp hr with h1 | h1
      · exact h r h1
      · rcases List.mem_singleton.mp h1 with rfl
        simp
    · simp only [runsOfGo, hf, if_false]
      exact ih done (cur ++ [e]) h

lemma getLast?_map_toC (r : List DeepgramResponseData) :
    (r.map toC).getLast? = r.getLast?.map toC :=
  List.getLast?_map toC r

lemma appendFinalsGo_spec (runs : List (List DeepgramResponseData)) :
    ∀ s, (∀ r ∈ runs, r ≠ []) →
    appendFinalsGo s (runs.map (List.map toC)) = some (s ++ finalsPart runs) := by
  induction runs with
  | nil =>
    intro s _
    simp [appendFinalsGo, finalsPart]
  | cons r rest ih =>
    intro s h
    have hr : r ≠ [] := h r (List.mem_cons_self r rest)
    have hrest : ∀ x ∈ rest, x ≠ [] := fun x hx => h x (List.mem_cons_of_mem r hx)
    obtain ⟨last, hlast⟩ : ∃ last, r.getLast? = some last := by
      cases hg : r.getLast? with
      | none => exact absurd (List.getLast?_eq_none_iff.mp hg) hr
      | some v => exact ⟨v, rfl⟩
    have hg2 : (r.map toC).getLast? = some (toC last) := by
      rw [getLast?_map_toC, hlast]
      rfl
    simp only [List.map_cons, appendFinalsGo, hg2]
    rw [ih (s ++ (toC last).transcript ++ " ") hrest]
    have htc : (toC last).transcript = lastFrag r := by
      simp [toC, lastFrag, hlast]
    rw [htc]
    simp [finalsPart, String.append_assoc]

lemma string_empty_append (s : String) : "" ++ s = s := by
  cases s
  rfl

/-- The code assembler agrees with the spec-level assembler whenever every
event carries at least one alternative. -/
lemma processTranscript_eq_assembleSpec (data : List DeepgramResponseData)
    (h : ∀ e ∈ data, e.alternatives ≠ []) :
    processTranscriptToString data = some (assembleSpec data) := by
  have hchunks : processChunks data =
      some ((runsOf data).1.map (List.map toC) ++ [(runsOf data).2.map toC]) := by
    have := processChunksGo_spec data [] [] h
    simpa [processChunks, runsOf] using this
  have hne : ∀ r ∈ (runsOf data).1, r ≠ [] :=
    runsOfGo_ne_nil data [] [] (by intro r hr; cases hr)
  unfold processTranscriptToString
  rw [hchunks]
  simp only [Option.some_bind, List.getLast?_concat, List.dropLast_concat, Option.getD_some]
  rw [appendFinalsGo_spec (runsOf data).1 "" hne, string_empty_append]
  simp only [Option.map_some']
  by_cases hlive : (runsOf data).2 = []
  · simp [hlive, assembleSpec]
  · obtain ⟨last, hlast⟩ : ∃ last, (runsOf data).2.getLast? = some last := by
      cases hg : (runsOf data).2.getLast? with
      | none => exact absurd (List.getLast?_eq_none_iff.mp hg) hlive
      | some v => exact ⟨v, rfl⟩
    have hg2 : ((runsOf data).2.map toC).getLast? = some (toC last) := by
      rw [getLast?_map_toC, hlast]
      rfl
    have hlen : ((runsOf data).2.map toC).length > 0 := by
      simpa using List.length_pos_of_ne_nil hlive
    rw [if_pos hlen, hg2]
    have hframe : (toC last).transcript = lastFrag (runsOf data).2 := by
      simp [toC, lastFrag, hlast]
    have hiso : (runsOf data).2.isEmpty = false := by
      simp [List.isEmpty_iff, hlive]
    simp [assembleSpec, hiso, hframe]

/-! ### Lemmas for the all-final special case -/

lemma runsOfGo_all_final (data : List DeepgramResponseData) :
    ∀ done, (∀ e ∈ data, e.is_final = true) →
    runsOfGo done [] data = (done ++ data.map (fun e => [e]), []) := by
  induction data with
  | nil => intro done _; simp [runsOfGo]
  | cons e rest ih =>
    intro done h
    have he : e.is_final = true := h e (List.mem_cons_self e rest)
    have hrest : ∀ x ∈ rest, x.is_final = true := fun x hx => h x (List.mem_cons_of_mem e hx)
    simp only [runsOfGo, he, if_true, List.nil_append]
    rw [ih (done ++ [[e]]) hrest]
    simp

lemma trimChars_append_space (l : List Char) : trimChars (l ++ [' ']) = trimChars l := by
  unfold trimChars
  rw [List.dropWhile_append]
  by_cases hd : (l.dropWhile Char.isWhitespace).isEmpty = true
  · have : l.dropWhile Char.isWhitespace = [] := List.isEmpty_iff.mp hd
    simp [hd, this, List.dropWhile]
  · rw [if_neg hd, List.reverse_append]
    have hsp : Char.isWhitespace ' ' = true := rfl
    simp [List.dropWhile_cons, hsp]

lemma jsTrim_append_space (s : String) : jsTrim (s ++ " ") = jsTrim s := by
  unfold jsTrim
  rw [String.data_append]
  have : (" " : String).data = [' '] := rfl
  rw [this, trimChars_append_space]

lemma finalsPart_singletons (l : List DeepgramResponseData) (hne : l ≠ []) :
    finalsPart (l.map (fun e => [e])) = joinSpace (l.map fragOf) ++ " " := by
  induction l with
  | nil => exact absurd rfl hne
  | cons e rest ih =>
    cases rest with
    | nil =>
      simp [finalsPart, joinSpace, lastFrag, fragOf]
    | cons b t =>
      have hr : (b :: t : List DeepgramResponseData) ≠ [] := by simp
      have ih2 := ih hr
      have hstep : finalsPart ((e :: b :: t).map (fun x => [x])) =
          (lastFrag [e] ++ " ") ++ finalsPart ((b :: t).map (fun x => [x])) := rfl
      rw [hstep, ih2]
      have hl : lastFrag [e] = fragOf e := by simp [lastFrag]
      have hj : joinSpace ((e :: b :: t).map fragOf) =
          fragOf e ++ " " ++ joinSpace ((b :: t).map fragOf) := rfl
      rw [hl, hj]
      simp [String.append_assoc]

lemma jsTrim_joinSpace_space (l : List String) :
    jsTrim (joinSpace l ++ " ") = jsTrim (joinSpace l) :=
  jsTrim_append_space (joinSpace l)

/-! ### Claim theorems for the transcript assembler -/

/-- C1: For every ordered sequence of recognition events (each carrying at
least one alternative, as the spec's RecognitionEvent does), the transcript
assembler partitions it into consecutive runs each ending at (and including)
an event with `isFinal = true`, keeps only the last event's fragment of each
completed run followed by a single space, appends only the last fragment of
a non-empty trailing run, and trims the result (it refines `assembleSpec`);
in particular, for any sequence of final events with no interleaving interim
events the output equals the final fragments joined by single spaces,
trimmed. -/
theorem C1_assembler_refinement (data : List DeepgramResponseData)
    (h : ∀ e ∈ data, e.alternatives ≠ []) :
    processTranscriptToString data = some (assembleSpec data) ∧
    ((∀ e ∈ data, e.is_final = true) →
      processTranscriptToString data = some (jsTrim (joinSpace (data.map fragOf)))) := by
  refine ⟨processTranscript_eq_assembleSpec data h, fun hall => ?_⟩
  rw [processTranscript_eq_assembleSpec data h]
  have hruns : runsOf data = (data.map (fun e => [e]), []) := by
    simpa [runsOf] using runsOfGo_all_final data [] hall
  by_cases hdn : data = []
  · subst hdn
    rfl
  · have h1 : assembleSpec data = jsTrim (finalsPart (data.map (fun e => [e]))) := by
      simp [assembleSpec, hruns]
    rw [h1, finalsPart_singletons data hdn, jsTrim_append_space]

/-- C1 witness: the spec's own example
`[("hello", interim), ("hello world", final), ("bye", interim)]` assembles to
`"hello world bye"`. -/
theorem C1_witness :
    processTranscriptToString
      [⟨["hello"], false⟩, ⟨["hello world"], true⟩, ⟨["bye"], false⟩] =
      some "hello world bye" :=
  ((C1_assembler_refinement
      [⟨["hello"], false⟩, ⟨["hello world"], true⟩, ⟨["bye"], false⟩]
      (by decide)).1).trans (by decide)

/-- C10: For every input sequence whose events all have a non-empty
alternatives list, the assembler is total (all internal partial accesses,
modelled by `Option`, succeed), and on the empty input it returns the empty
string. -/
theorem C10_assembler_total :
    (∀ data : List DeepgramResponseData, (∀ e ∈ data, e.alternatives ≠ []) →
      (processTranscriptToString data).isSome = true) ∧
    processTranscriptToString [] = some "" := by
  constructor
  · intro data h
    rw [processTranscript_eq_assembleSpec data h]
    rfl
  · rfl

/-- C10 witness: the all-interim example `["he", "hel", "hello"]` is
processed without any out-of-bounds access. -/
theorem C10_witness :
    (processTranscriptToString [⟨["he"], false⟩, ⟨["hel"], false⟩, ⟨["hello"], false⟩]).isSome =
      true :=
  C10_assembler_total.1 [⟨["he"], false⟩, ⟨["hel"], false⟩, ⟨["hello"], false⟩] (by decide)

/-! ### Lemmas about the machine actions -/

lemma stopAnalyzer_ctx (c : RecorderContext) (sch : List Nat) :
    (stopAnalyzerAction c sch).1 = { c with analyzerFrameId := none } := by
  obtain ⟨t, mic, sock, pk, er, st, pc, lg, ch, ra, au, et, an, da, fi, actx⟩ := c
  cases fi with
  | none => rfl
  | some f => rfl

lemma pause_shape (c : RecorderContext) :
    ∃ mo, (pauseRecordingAction c).1 = { c with microphone := mo } := by
  obtain ⟨t, mic, sock, pk, er, st, pc, lg, ch, ra, au, et, an, da, fi, actx⟩ := c
  cases mic with
  | none => exact ⟨none, rfl⟩
  | some m =>
    obtain ⟨ms⟩ := m
    cases ms with
    | inactive => exact ⟨some ⟨MicRecState.inactive⟩, rfl⟩
    | recording => exact ⟨some ⟨MicRecState.paused⟩, rfl⟩
    | paused => exact ⟨some ⟨MicRecState.paused⟩, rfl⟩

lemma resume_shape (c : RecorderContext) :
    ∃ mo, (resumeRecordingAction c).1 = { c with microphone := mo } := by
  obtain ⟨t, mic, sock, pk, er, st, pc, lg, ch, ra, au, et, an, da, fi, actx⟩ := c
  cases mic with
  | none => exact ⟨none, rfl⟩
  | some m =>
    obtain ⟨ms⟩ := m
    cases ms with
    | inactive => exact ⟨some ⟨MicRecState.inactive⟩, rfl⟩
    | recording => exact ⟨some ⟨MicRecState.recording⟩, rfl⟩
    | paused => exact ⟨some ⟨MicRecState.recording⟩, rfl⟩

lemma startRec_shape (c : RecorderContext) :
    ∃ mo, (startRecordingAction c).1 = { c with microphone := mo } := by
  obtain ⟨t, mic, sock, pk, er, st, pc, lg, ch, ra, au, et, an, da, fi, actx⟩ := c
  cases mic with
  | none => exact ⟨none, rfl⟩
  | some m =>
    cases sock with
    | none => exact ⟨some m, rfl⟩
    | some k =>
      obtain ⟨ms⟩ := m
      cases ms with
      | inactive => exact ⟨some ⟨MicRecState.recording⟩, rfl⟩
      | recording => exact ⟨some ⟨MicRecState.recording⟩, rfl⟩
      | paused => exact ⟨some ⟨MicRecState.paused⟩, rfl⟩

lemma startAnalyzer_shape (c : RecorderContext) (sch : List Nat) (n : Nat) :
    ∃ fo, (startAnalyzerAction c sch n).1 = { c with analyzerFrameId := fo } := by
  obtain ⟨t, mic, sock, pk, er, st, pc, lg, ch, ra, au, et, an, da, fi, actx⟩ := c
  cases an with
  | none => exact ⟨fi, rfl⟩
  | some a =>
    cases da with
    | none => exact ⟨fi, rfl⟩
    | some d => exact ⟨some n, rfl⟩

lemma pause_elapsed (c : RecorderContext) :
    (pauseRecordingAction c).1.elapsedTime = c.elapsedTime := by
  obtain ⟨mo, h⟩ := pause_shape c
  rw [h]

lemma resume_elapsed (c : RecorderContext) :
    (resumeRecordingAction c).1.elapsedTime = c.elapsedTime := by
  obtain ⟨mo, h⟩ := resume_shape c
  rw [h]

lemma startAnalyzer_elapsed (c : RecorderContext) (sch : List Nat) (n : Nat) :
    (startAnalyzerAction c sch n).1.elapsedTime = c.elapsedTime := by
  obtain ⟨fo, h⟩ := startAnalyzer_shape c sch n
  rw [h]

lemma stopAnalyzer_elapsed (c : RecorderContext) (sch : List Nat) :
    (stopAnalyzerAction c sch).1.elapsedTime = c.elapsedTime := by
  rw [stopAnalyzer_ctx]

lemma filter_createUrl_stopRec (c : RecorderContext) :
    (stopRecordingEffects c).filter isCreateUrl = [] := by
  unfold stopRecordingEffects
  split_ifs <;> rfl

lemma filter_createUrl_stopAnalyzer (c : RecorderContext) (sch : List Nat) :
    ((stopAnalyzerAction c sch).2.2).filter isCreateUrl = [] := by
  unfold stopAnalyzerAction
  cases hf : c.analyzerFrameId with
  | none => rfl
  | some f => rfl

lemma no_revoke_stopRec (c : RecorderContext) (u : Nat) :
    Effect.revokeUrl u ∉ stopRecordingEffects c := by
  unfold stopRecordingEffects
  split_ifs <;> simp

lemma no_revoke_stopAnalyzer (c : RecorderContext) (sch : List Nat) (u : Nat) :
    Effect.revokeUrl u ∉ (stopAnalyzerAction c sch).2.2 := by
  unfold stopAnalyzerAction
  cases hf : c.analyzerFrameId with
  | none => simp
  | some f => simp

/-! ### Claim theorems for the machine -/

/-- C3 (corrected): the machine has no handler for the `ERROR` event in any
state, so a mid-recording socket or microphone error event changes nothing:
the machine stays in its phase (in particular it never leaves `recording`),
and the `error` field of the context is NOT populated — the error is only
logged at the adapter layer (`console.error` in `startRecording`). -/
theorem C3_error_ignored (s : System) (msg : String) :
    step s (REvent.errorEvt msg) = (s, []) := by
  obtain ⟨p, c, sch, nf, nu⟩ := s
  cases p with
  | idle => rfl
  | prefetching => rfl
  | ready => rfl
  | initializing => rfl
  | recording sub => cases sub <;> rfl

/-- C3 counterexample: in `recording.active` with no recorded error, a
socket error event leaves `error = none` (the claim says the error field is
populated) even though the phase is indeed unchanged. -/
theorem C3_counterexample :
    (step sampleRecSys (REvent.errorEvt "socket error")).1.ctx.error = none ∧
    (step sampleRecSys (REvent.errorEvt "socket error")).1.phase =
      Phase.recording RecSub.active :=
  ⟨rfl, rfl⟩

/-- C7: a click while `prefetching` stays in `prefetching` (recording the
pending start), and the subsequent fetch success moves directly to
`initializing`, storing the fetched credential for the `initialize` actor
and clearing the pending-start flag; the intermediate state is never
`ready`. -/
theorem C7_prefetch_click_fast_path (c : RecorderContext) (sch : List Nat) (nf nu : Nat)
    (k : String) :
    (step ⟨Phase.prefetching, c, sch, nf, nu⟩ REvent.click).1.phase = Phase.prefetching ∧
    (step ⟨Phase.prefetching, c, sch, nf, nu⟩ REvent.click).1.phase ≠ Phase.ready ∧
    (step (step ⟨Phase.prefetching, c, sch, nf, nu⟩ REvent.click).1
        (REvent.fetchDone k)).1.phase = Phase.initializing ∧
    (step (step ⟨Phase.prefetching, c, sch, nf, nu⟩ REvent.click).1
        (REvent.fetchDone k)).1.ctx.prefetchedKey = some k ∧
    (step (step ⟨Phase.prefetching, c, sch, nf, nu⟩ REvent.click).1
        (REvent.fetchDone k)).1.ctx.pendingStartClick = false :=
  ⟨rfl, fun h => Phase.noConfusion h, rfl, rfl, rfl⟩

/-- C5: each teardown step of the exit protocol is individually guarded:
`stopRecording` emits a teardown effect exactly for the resources that are
present, `stopAnalyzer` is a no-op without a stored frame id, and with no
resources held the whole protocol performs no operation (and, being a total
function, raises no error). -/
theorem C5_exit_guarded (c : RecorderContext) (sched : List Nat) :
    (Effect.micStop ∈ stopRecordingEffects c ↔ c.microphone.isSome = true) ∧
    (Effect.socketRequestClose ∈ stopRecordingEffects c ↔ c.socket.isSome = true) ∧
    (Effect.trackStop ∈ stopRecordingEffects c ↔ c.stream.isSome = true) ∧
    (Effect.audioContextClose ∈ stopRecordingEffects c ↔ c.audioContext.isSome = true) ∧
    (Effect.analyserDisconnect ∈ stopRecordingEffects c ↔ c.analyser.isSome = true) ∧
    (c.analyzerFrameId = none → stopAnalyzerAction c sched = (c, sched, [])) ∧
    (c.microphone = none → c.socket = none → c.stream = none → c.audioContext = none →
      c.analyser = none → stopRecordingEffects c = []) := by
  have hstop : c.analyzerFrameId = none → stopAnalyzerAction c sched = (c, sched, []) := by
    intro h
    unfold stopAnalyzerAction
    rw [h]
  have hempty : c.microphone = none → c.socket = none → c.stream = none →
      c.audioContext = none → c.analyser = none → stopRecordingEffects c = [] := by
    intro h1 h2 h3 h4 h5
    simp [stopRecordingEffects, h1, h2, h3, h4, h5]
  refine ⟨?_, ?_, ?_, ?_, ?_, hstop, hempty⟩ <;>
    · unfold stopRecordingEffects
      split_ifs <;> simp_all

/-- C5 witness: on the machine's initial context (no resources held) the
exit protocol performs no operation. -/
theorem C5_witness :
    stopAnalyzerAction initialContext [] = (initialContext, [], []) ∧
    stopRecordingEffects initialContext = [] :=
  ⟨(C5_exit_guarded initialContext []).2.2.2.2.2.1 rfl,
   (C5_exit_guarded initialContext []).2.2.2.2.2.2 rfl rfl rfl rfl rfl⟩

/-- C9: while recording, the one-second timer event in `active` increments
`elapsedTime` by exactly one (staying in `active`); no event that keeps the
machine inside `recording` changes `elapsedTime` from `paused` (the timer is
not armed there, so there are no catch-up ticks); and pausing then resuming
leaves `elapsedTime` unchanged, with the next one-second tick incrementing
it by exactly one again. -/
theorem C9_tick_semantics (s : System) :
    (s.phase = Phase.recording RecSub.active →
      (step s REvent.after1000).1.phase = Phase.recording RecSub.active ∧
      (step s REvent.after1000).1.ctx.elapsedTime = s.ctx.elapsedTime + 1) ∧
    (s.phase = Phase.recording RecSub.paused → ∀ e sub,
      (step s e).1.phase = Phase.recording sub →
      (step s e).1.ctx.elapsedTime = s.ctx.elapsedTime) ∧
    (s.phase = Phase.recording RecSub.active →
      (run s [REvent.togglePause, REvent.togglePause]).phase = Phase.recording RecSub.active ∧
      (run s [REvent.togglePause, REvent.togglePause]).ctx.elapsedTime = s.ctx.elapsedTime ∧
      (run s [REvent.togglePause, REvent.togglePause, REvent.after1000]).ctx.elapsedTime =
        s.ctx.elapsedTime + 1) := by
  obtain ⟨p, c, sch, nf, nu⟩ := s
  refine ⟨?_, ?_, ?_⟩
  · intro h
    cases h
    exact ⟨rfl, rfl⟩
  · intro h e sub
    cases h
    cases e with
    | togglePause =>
      intro _
      simp only [step]
      simp [startAnalyzer_elapsed, resume_elapsed]
    | click =>
      intro h2
      exact absurd h2 (by simp [step])
    | frameFired id =>
      intro _
      simp only [step]
      split <;> rfl
    | changeLanguage l => intro _; rfl
    | transcriptReceived d => intro _; rfl
    | audioData ch => intro _; rfl
    | hover => intro _; rfl
    | fetchDone k => intro _; rfl
    | fetchError m2 => intro _; rfl
    | initDone b => intro _; rfl
    | initError m2 => intro _; rfl
    | after1000 => intro _; rfl
    | after20000 => intro _; rfl
    | errorEvt m2 => intro _; rfl
  · intro h
    cases h
    refine ⟨?_, ?_, ?_⟩
    · simp only [run, List.foldl, step]
    · simp only [run, List.foldl, step]
      simp [startAnalyzer_elapsed, resume_elapsed, stopAnalyzer_elapsed, pause_elapsed]
    · simp only [run, List.foldl, step]
      simp [startAnalyzer_elapsed, resume_elapsed, stopAnalyzer_elapsed, pause_elapsed]

/-- C9 witness: on the sample mid-recording system (42 elapsed seconds),
pause, resume and one further second of active time yield 43. -/
theorem C9_witness :
    (run sampleRecSys [REvent.togglePause, REvent.togglePause, REvent.after1000]).ctx.elapsedTime =
      sampleRecSys.ctx.elapsedTime + 1 :=
  ((C9_tick_semantics sampleRecSys).2.2 rfl).2.2

/-- C4: stopping from any `recording` substate produces exactly one new
playable artifact handle (`createUrl`) built from all accumulated chunks in
arrival order, revokes the previously published handle exactly when one
existed, and resets the transient recording state (chunks, elapsed time,
pending-start flag, cached credential, resource-bundle fields) to
empty/absent; audio chunks accumulate in arrival order while recording. -/
theorem C4_stop_artifact (s : System) (sub : RecSub) (h : s.phase = Phase.recording sub) :
    (step s REvent.click).1.ctx =
      { s.ctx with
          microphone := none, socket := none, pendingStartClick := false,
          audioChunks := [], stream := none, prefetchedKey := none, elapsedTime := 0,
          analyser := none, dataArray := none, audioContext := none,
          analyzerFrameId := none,
          recordedAudio := some s.ctx.audioChunks,
          audioUrl := some s.nextUrl } ∧
    (step s REvent.click).1.phase = Phase.idle ∧
    ((step s REvent.click).2.filter isCreateUrl) =
      [Effect.createUrl s.nextUrl s.ctx.audioChunks] ∧
    (∀ u, s.ctx.audioUrl = some u → Effect.revokeUrl u ∈ (step s REvent.click).2) ∧
    (s.ctx.audioUrl = none → ∀ u, Effect.revokeUrl u ∉ (step s REvent.click).2) ∧
    (∀ ch, (step s (REvent.audioData ch)).1.ctx.audioChunks = s.ctx.audioChunks ++ [ch]) := by
  obtain ⟨p, c, sch, nf, nu⟩ := s
  cases h
  cases sub <;>
  · refine ⟨?_, rfl, ?_, ?_, ?_, fun ch => rfl⟩
    · simp only [step]
      rw [stopAnalyzer_ctx]
      rfl
    · simp only [step]
      rw [List.filter_append, List.filter_append, filter_createUrl_stopRec,
        filter_createUrl_stopAnalyzer, stopAnalyzer_ctx]
      cases hu : c.audioUrl <;> simp [recordingExitAssign, hu, isCreateUrl, List.filter]
    · intro u hu
      dsimp only at hu
      simp only [step]
      rw [stopAnalyzer_ctx]
      simp [recordingExitAssign, hu]
    · intro hu u
      dsimp only at hu
      simp only [step]
      rw [stopAnalyzer_ctx]
      simp [recordingExitAssign, hu, List.mem_append, no_revoke_stopRec,
        no_revoke_stopAnalyzer]

/-! ### Lemmas for credential tracking and analyzer cancellation -/

lemma stopAnalyzer_some (c : RecorderContext) (sch : List Nat) (f : Nat)
    (h : c.analyzerFrameId = some f) :
    stopAnalyzerAction c sch =
      ({ c with analyzerFrameId := none }, sch.erase f, [Effect.cancelFrame f]) := by
  unfold stopAnalyzerAction
  rw [h]

lemma pause_key (c : RecorderContext) :
    (pauseRecordingAction c).1.prefetchedKey = c.prefetchedKey := by
  obtain ⟨mo, h⟩ := pause_shape c
  rw [h]

lemma resume_key (c : RecorderContext) :
    (resumeRecordingAction c).1.prefetchedKey = c.prefetchedKey := by
  obtain ⟨mo, h⟩ := resume_shape c
  rw [h]

lemma startRec_key (c : RecorderContext) :
    (startRecordingAction c).1.prefetchedKey = c.prefetchedKey := by
  obtain ⟨mo, h⟩ := startRec_shape c
  rw [h]

lemma startAnalyzer_key (c : RecorderContext) (sch : List Nat) (n : Nat) :
    (startAnalyzerAction c sch n).1.prefetchedKey = c.prefetchedKey := by
  obtain ⟨fo, h⟩ := startAnalyzer_shape c sch n
  rw [h]

lemma stopAnalyzer_key (c : RecorderContext) (sch : List Nat) :
    (stopAnalyzerAction c sch).1.prefetchedKey = c.prefetchedKey := by
  rw [stopAnalyzer_ctx]

/-- A step can produce a cached credential only by keeping the one already
present or by consuming a fetch-completion event carrying it. -/
lemma step_key_origin (s : System) (e : REvent) (k : String)
    (h : (step s e).1.ctx.prefetchedKey = some k) :
    s.ctx.prefetchedKey = some k ∨ e = REvent.fetchDone k := by
  obtain ⟨p, c, sch, nf, nu⟩ := s
  cases p with
  | idle =>
    cases e <;> try exact Or.inl h
    case frameFired id =>
      simp only [step] at h
      split at h <;> exact Or.inl h
  | prefetching =>
    cases e <;> try exact Or.inl h
    case fetchDone key =>
      simp only [step] at h
      split at h <;>
        exact Or.inr (congrArg REvent.fetchDone (Option.some.inj h))
    case frameFired id =>
      simp only [step] at h
      split at h <;> exact Or.inl h
  | ready =>
    cases e <;> try exact Or.inl h
    case after20000 =>
      simp [step, invalidateKey] at h
    case frameFired id =>
      simp only [step] at h
      split at h <;> exact Or.inl h
  | initializing =>
    cases e <;> try exact Or.inl h
    case initDone b =>
      simp only [step] at h
      rw [startAnalyzer_key, startRec_key] at h
      simp at h
    case frameFired id =>
      simp only [step] at h
      split at h <;> exact Or.inl h
  | recording sub =>
    cases sub <;> cases e <;> try exact Or.inl h
    case active.togglePause =>
      simp only [step] at h
      rw [stopAnalyzer_key, pause_key] at h
      exact Or.inl h
    case active.click =>
      simp [step, recordingExitAssign] at h
    case active.frameFired id =>
      simp only [step] at h
      split at h <;> exact Or.inl h
    case paused.togglePause =>
      simp only [step] at h
      rw [startAnalyzer_key, resume_key] at h
      exact Or.inl h
    case paused.click =>
      simp [step, recordingExitAssign] at h
    case paused.frameFired id =>
      simp only [step] at h
      split at h <;> exact Or.inl h

/-- Trace version of `step_key_origin`. -/
lemma run_key_origin (tr : List REvent) :
    ∀ (s : System) (k : String), (run s tr).ctx.prefetchedKey = some k →
      s.ctx.prefetchedKey = some k ∨ REvent.fetchDone k ∈ tr := by
  induction tr with
  | nil => intro s k h; exact Or.inl h
  | cons e rest ih =>
    intro s k h
    rcases ih (step s e).1 k h with h2 | h2
    · rcases step_key_origin s e k h2 with h3 | h3
      · exact Or.inl h3
      · exact Or.inr (by rw [h3]; exact List.mem_cons_self _ _)
    · exact Or.inr (List.mem_cons_of_mem e h2)

/-- Invariant: in `ready` and `initializing` a credential is always cached. -/
lemma step_phase_key (s : System) (e : REvent)
    (hJ : (s.phase = Phase.ready ∨ s.phase = Phase.initializing) →
      s.ctx.prefetchedKey ≠ none) :
    ((step s e).1.phase = Phase.ready ∨ (step s e).1.phase = Phase.initializing) →
      (step s e).1.ctx.prefetchedKey ≠ none := by
  obtain ⟨p, c, sch, nf, nu⟩ := s
  cases p with
  | idle =>
    cases e <;>
      first
      | exact hJ
      | (intro h2; rcases h2 with h2 | h2 <;> exact Phase.noConfusion h2)
      | (simp only [step]; split <;> exact hJ)
  | prefetching =>
    cases e <;>
      first
      | exact hJ
      | (intro h2; rcases h2 with h2 | h2 <;> exact Phase.noConfusion h2)
      | (simp only [step]; split <;> exact hJ)
      | (simp only [step]; split <;> (intro _; simp))
  | ready =>
    cases e <;>
      first
      | exact hJ
      | exact fun _ => hJ (Or.inl rfl)
      | (intro h2; rcases h2 with h2 | h2 <;> exact Phase.noConfusion h2)
      | (simp only [step]; split <;> exact hJ)
  | initializing =>
    cases e <;>
      first
      | exact hJ
      | (intro h2; rcases h2 with h2 | h2 <;> exact Phase.noConfusion h2)
      | (simp only [step]; split <;> exact hJ)
  | recording sub =>
    cases sub <;> cases e <;>
      first
      | exact hJ
      | (intro h2; rcases h2 with h2 | h2 <;> exact Phase.noConfusion h2)
      | (simp only [step]; split <;> exact hJ)

/-- Trace version of `step_phase_key`. -/
lemma run_phase_key (tr : List REvent) :
    ∀ s : System,
      ((s.phase = Phase.ready ∨ s.phase = Phase.initializing) →
        s.ctx.prefetchedKey ≠ none) →
      ((run s tr).phase = Phase.ready ∨ (run s tr).phase = Phase.initializing) →
      (run s tr).ctx.prefetchedKey ≠ none := by
  induction tr with
  | nil => intro s hJ; exact hJ
  | cons e rest ih => intro s hJ; exact ih (step s e).1 (step_phase_key s e hJ)

/-! ### Remaining claim theorems -/

/-- C2 (corrected): the `initialize` actor returns the full bundle exactly
on joint success of the two concurrent acquisitions; on any failure it
surfaces the error directly, performing NO release of the other
acquisition's already-acquired resource (the effect list of release
operations is empty in every branch — the microphone lock or socket is left
dangling on partial failure). The machine-level bundle remains
all-or-nothing only because the failure path stores no handle at all. -/
theorem C2_no_unwind (pk : Option String) (fr : Except String String)
    (mr : Except String MicAcquisition) (sr : Except String Nat) :
    (initializeActor pk fr mr sr).2 = [] ∧
    (∀ b, (initializeActor pk fr mr sr).1 = Except.ok b →
      mr = Except.ok ⟨b.microphone, b.stream⟩ ∧ sr = Except.ok b.socket) ∧
    (∀ m e, mr = Except.ok m → sr = Except.error e →
      (pk ≠ none ∨ ∃ k, fr = Except.ok k) →
      (initializeActor pk fr mr sr).1 = Except.error e) ∧
    (∀ a e, mr = Except.error e → sr = Except.ok a →
      (pk ≠ none ∨ ∃ k, fr = Except.ok k) →
      (initializeActor pk fr mr sr).1 = Except.error e) := by
  cases pk <;> cases fr <;> cases mr <;> cases sr <;>
    simp [initializeActor]

/-- C2 counterexample: with a key available and the microphone successfully
acquired, a failing socket connection surfaces the error while the list of
release operations performed is empty — the microphone is not released
before the failure is surfaced, contradicting the claim. -/
theorem C2_counterexample :
    (initializeActor none (Except.ok "key") (Except.ok ⟨⟨MicRecState.inactive⟩, 7⟩)
        (Except.error "socket failed")).1 = Except.error "socket failed" ∧
    (initializeActor none (Except.ok "key") (Except.ok ⟨⟨MicRecState.inactive⟩, 7⟩)
        (Except.error "socket failed")).2 = [] :=
  ⟨rfl, rfl⟩

/-- C2 witness: a failing socket next to a successful microphone surfaces
the socket error. -/
theorem C2_witness :
    (initializeActor none (Except.ok "k2") (Except.ok ⟨⟨MicRecState.inactive⟩, 3⟩)
        (Except.error "boom")).1 = Except.error "boom" :=
  (C2_no_unwind none (Except.ok "k2") (Except.ok ⟨⟨MicRecState.inactive⟩, 3⟩)
      (Except.error "boom")).2.2.1 ⟨⟨MicRecState.inactive⟩, 3⟩ "boom" rfl rfl
    (Or.inr ⟨"k2", rfl⟩)

/-- C8 (corrected): the sampling loop's handle is tracked and `stopAnalyzer`
cancels the stored handle at most once (it clears the stored id, so a second
invocation performs no cancellation), and leaving `active` via pause cancels
the stored frame and removes it from the schedule; BUT the context stores
only the FIRST frame id of the self-rescheduling loop, so once a frame has
fired, leaving `active` cancels a stale id and the loop's re-scheduled
iteration remains pending — the concrete run below leaves frame 1 scheduled
after the pause. -/
theorem C8_analyzer_cancellation :
    (∀ (c : RecorderContext) (sch : List Nat) (f : Nat), c.analyzerFrameId = some f →
      stopAnalyzerAction c sch =
        ({ c with analyzerFrameId := none }, sch.erase f, [Effect.cancelFrame f]) ∧
      (stopAnalyzerAction { c with analyzerFrameId := none } (sch.erase f)).2.2 = []) ∧
    (∀ (s : System) (f : Nat), s.phase = Phase.recording RecSub.active →
      s.ctx.analyzerFrameId = some f →
      (step s REvent.togglePause).1.ctx.analyzerFrameId = none ∧
      Effect.cancelFrame f ∈ (step s REvent.togglePause).2 ∧
      (step s REvent.togglePause).1.scheduled = s.scheduled.erase f) ∧
    ((run initializingSys
        [REvent.initDone bundle0, REvent.frameFired 0, REvent.togglePause]).phase =
      Phase.recording RecSub.paused ∧
     (run initializingSys
        [REvent.initDone bundle0, REvent.frameFired 0, REvent.togglePause]).scheduled = [1]) := by
  refine ⟨?_, ?_, rfl, rfl⟩
  · intro c sch f h
    exact ⟨stopAnalyzer_some c sch f h, rfl⟩
  · intro s f hp hf
    obtain ⟨p, c, sch, nf, nu⟩ := s
    cases hp
    dsimp only at hf
    obtain ⟨mo, hmo⟩ := pause_shape c
    have hf2 : (pauseRecordingAction c).1.analyzerFrameId = some f := by
      rw [hmo]
      exact hf
    simp only [step]
    rw [stopAnalyzer_some _ _ _ hf2]
    refine ⟨rfl, ?_, rfl⟩
    simp

/-- C8 counterexample: start recording, let one animation frame fire (the
loop re-schedules itself as frame 1 while the context still stores frame 0),
then pause: the machine leaves `active` cancelling only the stale frame 0,
and the re-scheduled iteration (frame 1) is left uncancelled, contradicting
the claim that no scheduled loop iteration survives leaving `active`. -/
theorem C8_counterexample :
    (run initializingSys
        [REvent.initDone bundle0, REvent.frameFired 0, REvent.togglePause]).phase =
      Phase.recording RecSub.paused ∧
    (run initializingSys
        [REvent.initDone bundle0, REvent.frameFired 0, REvent.togglePause]).scheduled = [1] ∧
    (step (run initializingSys [REvent.initDone bundle0, REvent.frameFired 0])
        REvent.togglePause).2 = [Effect.micPause, Effect.cancelFrame 0] :=
  ⟨rfl, rfl, rfl⟩

/-- C8 witness: on the sample mid-recording context the stored frame 0 is
cancelled, removed from the schedule, and a repeated `stopAnalyzer` performs
no further cancellation. -/
theorem C8_witness :
    stopAnalyzerAction sampleRecCtx [0] =
      ({ sampleRecCtx with analyzerFrameId := none }, [], [Effect.cancelFrame 0]) ∧
    (stopAnalyzerAction { sampleRecCtx with analyzerFrameId := none } ([0].erase 0)).2.2 = [] :=
  C8_analyzer_cancellation.1 sampleRecCtx [0] 0 rfl

/-- C6 (corrected): an unused credential cached in `ready` is discarded
after the 20-second timeout, returning to `idle` with `prefetchedKey` (and
`error`) cleared; a start signal in `idle` is ignored, so a subsequent start
must go through a fresh hover-prefetch, and every path from that `idle`
state into `initializing` carries a credential produced by a fetch
completion inside the trace — the machine can never re-enter `initializing`
with the stale value (nor with no credential at all). -/
theorem C6_credential_expiry :
    (∀ (c : RecorderContext) (sch : List Nat) (nf nu : Nat),
      step ⟨Phase.ready, c, sch, nf, nu⟩ REvent.after20000 =
        (⟨Phase.idle, { c with prefetchedKey := none, error := none }, sch, nf, nu⟩, [])) ∧
    (∀ (s0 : System) (tr : List REvent), s0.phase = Phase.idle →
      s0.ctx.prefetchedKey = none → (run s0 tr).phase = Phase.initializing →
      ∃ k, REvent.fetchDone k ∈ tr ∧ (run s0 tr).ctx.prefetchedKey = some k) ∧
    (∀ (s0 : System) (tr : List REvent) (k : String), s0.ctx.prefetchedKey ≠ some k →
      (∀ e ∈ tr, e ≠ REvent.fetchDone k) →
      (run s0 tr).ctx.prefetchedKey ≠ some k) := by
  refine ⟨fun c sch nf nu => rfl, ?_, ?_⟩
  · intro s0 tr h1 h2 h3
    have hkey : (run s0 tr).ctx.prefetchedKey ≠ none := by
      refine run_phase_key tr s0 ?_ (Or.inr h3)
      intro hc
      rcases hc with hc | hc <;> (rw [h1] at hc; exact Phase.noConfusion hc)
    cases hk : (run s0 tr).ctx.prefetchedKey with
    | none => exact absurd hk hkey
    | some k =>
      rcases run_key_origin tr s0 k hk with hl | hl
      · rw [h2] at hl
        exact Option.noConfusion hl
      · exact ⟨k, hl, rfl⟩
  · intro s0 tr k h1 h2 h3
    rcases run_key_origin tr s0 k h3 with hl | hl
    · exact h1 hl
    · exact h2 _ hl rfl

/-- C6 counterexample: from `ready` with the stale key, the timeout discards
the credential and returns to `idle` (that part of the claim holds), but the
subsequent start — hover, click, fresh fetch — arrives in `initializing`
WITH a cached credential (the fresh one), so the claim's "reaches
Initializing with no cached credential" is false. -/
theorem C6_counterexample :
    (run staleReadySys [REvent.after20000]).phase = Phase.idle ∧
    (run staleReadySys [REvent.after20000]).ctx.prefetchedKey = none ∧
    (run staleReadySys
        [REvent.after20000, REvent.hover, REvent.click, REvent.fetchDone "fresh"]).phase =
      Phase.initializing ∧
    (run staleReadySys
        [REvent.after20000, REvent.hover, REvent.click,
          REvent.fetchDone "fresh"]).ctx.prefetchedKey = some "fresh" :=
  ⟨rfl, rfl, rfl, rfl⟩

/-- C6 witness: the canonical restart trace from `idle` reaches
`initializing` through a fresh fetch completion. -/
theorem C6_witness :
    ∃ k, REvent.fetchDone k ∈ [REvent.hover, REvent.click, REvent.fetchDone "fresh"] ∧
      (run idleSys [REvent.hover, REvent.click, REvent.fetchDone "fresh"]).ctx.prefetchedKey =
        some k :=
  C6_credential_expiry.2.1 idleSys [REvent.hover, REvent.click, REvent.fetchDone "fresh"]
    rfl rfl rfl

/-- C4 witness: stopping the sample mid-recording system yields the fully
reset context carrying the three-chunk artifact and the fresh handle 8. -/
theorem C4_witness :
    (step sampleRecSys REvent.click).1.ctx =
      { sampleRecSys.ctx with
          microphone := none, socket := none, pendingStartClick := false,
          audioChunks := [], stream := none, prefetchedKey := none, elapsedTime := 0,
          analyser := none, dataArray := none, audioContext := none,
          analyzerFrameId := none,
          recordedAudio := some sampleRecSys.ctx.audioChunks,
          audioUrl := some sampleRecSys.nextUrl } :=
  (C4_stop_artifact sampleRecSys RecSub.active rfl).1

end Recorder
